import Mathlib

/-!
Verification of the retrieval and storage layer of `src/client/database.py`
(the `DatabaseManager` class and its SQLAlchemy models).

The database state is embedded as explicit lists of rows.  The PostgreSQL
built-in functions the raw SQL queries invoke (`websearch_to_tsquery`/`@@`
matching, `ts_rank`, and the pgvector distance operator `<=>`) are
abstracted as an explicit record of functions `PG`, because the queries'
own logic (filtering, the full outer join, the score fusion, ordering and
truncation) is independent of the concrete built-ins.  Scores and vector
components live in an arbitrary linearly ordered commutative ring `R`
(so every theorem holds for `ℚ`, and concrete fixtures compute in `ℤ`).
-/

set_option linter.unusedSectionVars false

namespace AIBrainDB

variable {R : Type} [LinearOrderedCommRing R]

/-- The PostgreSQL built-in functions the raw SQL of `database.py` invokes:
tsvector matching, tsvector ranking and the pgvector distance operator. -/
structure PG (R : Type) where
  websearchMatch : List String → String → Bool
  tsRank : List String → String → R
  vdist : List R → List R → R

/-- A row of the `resources` table (the columns the claims mention). -/
structure Resource where
  uuid : Nat
  remote_src_url : Option String
  source_id : String
  content_header : String
  need_parsed : Bool
  crawl_completed : Bool
deriving Repr, DecidableEq

/-- A row of the `chunks` table (the columns the claims mention).
`chunking_text_tsv` is the derived tsvector, kept as a token list;
`chunk_embedding` is nullable, as in the schema. -/
structure Chunk (R : Type) where
  uuid : Nat
  resource_uuid : Nat
  chunk_order : Nat
  chunking_text : String
  description : Option String
  chunking_text_tsv : List String
  chunk_embedding : Option (List R)
deriving Repr, DecidableEq

/-- A row of the `images` table (only its identity matters here). -/
structure Image where
  uuid : Nat
deriving Repr, DecidableEq

/-- A row of the `parsed_artifacts` table (only its identity matters here). -/
structure ParsedArtifact where
  uuid : Nat
deriving Repr, DecidableEq

/-- The database state: one list of rows per table. -/
structure State (R : Type) where
  resources : List Resource
  chunks : List (Chunk R)
  images : List Image
  parsed_artifacts : List ParsedArtifact
deriving Repr, DecidableEq

/-! ### A stable sort, modelling SQL ORDER BY

`ORDER BY key DESC` sorts by the key only; rows with equal keys keep the
order in which the underlying scan produced them (the engine guarantees
nothing more).  A stable insertion sort over the row list realises one
such admissible order deterministically. -/

/-- Insert `a` into `l`, placing it before the first element it must
strictly precede, hence after every earlier element with an equal key. -/
def insertSorted (lt : α → α → Bool) (a : α) : List α → List α
  | [] => [a]
  | b :: bs => if lt a b then a :: b :: bs else b :: insertSorted lt a bs

/-- Insert every element of `l`, in order, into the accumulator `acc`. -/
def insertAll (lt : α → α → Bool) : List α → List α → List α
  | [], acc => acc
  | a :: as, acc => insertAll lt as (insertSorted lt a acc)

/-- Stable sort placing elements with strictly larger `k` first. -/
def sortDescBy {β : Type} [LinearOrder β] (k : α → β) (l : List α) : List α :=
  insertAll (fun a b => decide (k b < k a)) l []

/-! ### The queries of `DatabaseManager` -/

/-- A result row of `search_chunks_by_embedding`:
`uuid, resource_uuid, chunking_text, description, similarity`. -/
structure VRow (R : Type) where
  uuid : Nat
  resource_uuid : Nat
  chunking_text : String
  description : Option String
  similarity : R
deriving Repr, DecidableEq

/-- `DatabaseManager.search_chunks_by_embedding`: the raw SQL selects the
chunks whose `chunk_embedding` is not NULL, computes
`similarity = 1 - (chunk_embedding <=> :embedding)`, keeps the rows with
`similarity > :threshold`, orders by the distance ascending (equivalently,
by similarity descending) and truncates to `:limit`. -/
def search_chunks_by_embedding (pg : PG R) (st : State R) (embedding : List R)
    (threshold : R) (limit : Nat) : List (VRow R) :=
  (sortDescBy (fun r => r.similarity)
    ((st.chunks.filterMap (fun c =>
        c.chunk_embedding.map (fun e =>
          ({ uuid := c.uuid, resource_uuid := c.resource_uuid,
             chunking_text := c.chunking_text, description := c.description,
             similarity := 1 - pg.vdist e embedding } : VRow R)))).filter
      (fun r => decide (threshold < r.similarity)))).take limit

/-- A row of the `text_search` CTE of `hybrid_search_chunks`. -/
structure TRow (R : Type) where
  uuid : Nat
  resource_uuid : Nat
  chunking_text : String
  description : Option String
  text_score : R
deriving Repr, DecidableEq

/-- A row of the `vector_search` CTE of `hybrid_search_chunks`. -/
structure VSRow (R : Type) where
  uuid : Nat
  resource_uuid : Nat
  chunking_text : String
  description : Option String
  vector_score : R
deriving Repr, DecidableEq

/-- A result row of `hybrid_search_chunks`. -/
structure HRow (R : Type) where
  uuid : Nat
  resource_uuid : Nat
  chunking_text : String
  description : Option String
  combined_score : R
deriving Repr, DecidableEq

/-- The `text_search` CTE: chunks whose tsvector matches the websearch
query, with their `ts_rank` score. -/
def textSearchCTE (pg : PG R) (st : State R) (text_query : String) :
    List (TRow R) :=
  (st.chunks.filter (fun c => pg.websearchMatch c.chunking_text_tsv text_query)).map
    (fun c =>
      { uuid := c.uuid, resource_uuid := c.resource_uuid,
        chunking_text := c.chunking_text, description := c.description,
        text_score := pg.tsRank c.chunking_text_tsv text_query })

/-- The `vector_search` CTE: chunks with a non-NULL embedding, with
`vector_score = 1 - (chunk_embedding <=> :embedding)`. -/
def vectorSearchCTE (pg : PG R) (st : State R) (embedding : List R) :
    List (VSRow R) :=
  st.chunks.filterMap (fun c =>
    c.chunk_embedding.map (fun e =>
      { uuid := c.uuid, resource_uuid := c.resource_uuid,
        chunking_text := c.chunking_text, description := c.description,
        vector_score := 1 - pg.vdist e embedding }))

/-- The FULL OUTER JOIN of the two CTEs on `uuid`, with the COALESCEd
display columns and
`combined_score = COALESCE(t.text_score, 0) * :text_weight
               + COALESCE(v.vector_score, 0) * :vector_weight`. -/
def hybridJoin (tw vw : R) (ts : List (TRow R)) (vs : List (VSRow R)) :
    List (HRow R) :=
  ts.map (fun t =>
    { uuid := t.uuid, resource_uuid := t.resource_uuid,
      chunking_text := t.chunking_text, description := t.description,
      combined_score := t.text_score * tw +
        (Option.getD ((vs.find? (fun v => decide (v.uuid = t.uuid))).map
          (fun v => v.vector_score)) 0) * vw })
  ++ (vs.filter (fun v => !(ts.any (fun t => decide (t.uuid = v.uuid))))).map
    (fun v =>
      { uuid := v.uuid, resource_uuid := v.resource_uuid,
        chunking_text := v.chunking_text, description := v.description,
        combined_score := 0 * tw + v.vector_score * vw })

/-- `DatabaseManager.hybrid_search_chunks`: run both CTEs, full-outer-join
them on `uuid`, order by `combined_score DESC` and truncate to `:limit`. -/
def hybrid_search_chunks (pg : PG R) (st : State R) (text_query : String)
    (embedding : List R) (text_weight vector_weight : R) (limit : Nat) :
    List (HRow R) :=
  (sortDescBy (fun r => r.combined_score)
    (hybridJoin text_weight vector_weight
      (textSearchCTE pg st text_query)
      (vectorSearchCTE pg st embedding))).take limit

/-- The lexical score a chunk id contributes to the fused score: its
`ts_rank` when its tsvector matches the query, `0` when it does not match
or no chunk carries the id (the missing-side COALESCE). -/
def textScoreOf (pg : PG R) (st : State R) (text_query : String) (u : Nat) : R :=
  match st.chunks.find? (fun c => decide (c.uuid = u)) with
  | some c =>
      if pg.websearchMatch c.chunking_text_tsv text_query
      then pg.tsRank c.chunking_text_tsv text_query else 0
  | none => 0

/-- The vector score a chunk id contributes to the fused score: its
similarity when it stores an embedding, `0` when its embedding is NULL or
no chunk carries the id (the missing-side COALESCE). -/
def vecScoreOf (pg : PG R) (st : State R) (embedding : List R) (u : Nat) : R :=
  match st.chunks.find? (fun c => decide (c.uuid = u)) with
  | some c =>
      match c.chunk_embedding with
      | some e => 1 - pg.vdist e embedding
      | none => 0
  | none => 0

/-! ### Mutating operations of `DatabaseManager` -/

/-- The error a commit raises when an INSERT violates a constraint of the
schema: `duplicateResource` for the UNIQUE constraint on
`resources.remote_src_url`, `uniqueViolation` for the primary key. -/
inductive DbError where
  | duplicateResource
  | uniqueViolation
deriving Repr, DecidableEq

/-- Does inserting `r` violate the UNIQUE constraint on
`resources.remote_src_url`?  SQL UNIQUE ignores NULLs, so a resource with
no remote URL never conflicts. -/
def urlConflict (st : State R) (r : Resource) : Bool :=
  match r.remote_src_url with
  | some url => st.resources.any (fun r0 => decide (r0.remote_src_url = some url))
  | none => false

/-- `DatabaseManager.create_resource`: construct the row, `session.add` it
and commit.  The commit fails (SQLAlchemy raises `IntegrityError`, the row
is not persisted) when the primary key or the `remote_src_url` UNIQUE
constraint is violated; otherwise the row is appended. -/
def create_resource (st : State R) (r : Resource) :
    Except DbError Resource × State R :=
  if st.resources.any (fun r0 => decide (r0.uuid = r.uuid)) then
    (Except.error DbError.uniqueViolation, st)
  else if urlConflict st r then
    (Except.error DbError.duplicateResource, st)
  else
    (Except.ok r, { st with resources := st.resources ++ [r] })

/-- The keyword arguments `update_resource` accepts (the subset of
`Resource` columns the claims exercise); `none` means the keyword is not
supplied, so the column keeps its value. -/
structure ResourceUpdate where
  content_header : Option String
  need_parsed : Option Bool
  crawl_completed : Option Bool
deriving Repr, DecidableEq

/-- Apply the supplied keyword arguments to a resource row
(`setattr` for each supplied key). -/
def applyUpdate (r : Resource) (u : ResourceUpdate) : Resource :=
  { r with
    content_header := u.content_header.getD r.content_header,
    need_parsed := u.need_parsed.getD r.need_parsed,
    crawl_completed := u.crawl_completed.getD r.crawl_completed }

/-- `DatabaseManager.update_resource`: look the resource up by uuid; when
absent return `None` without touching the session, otherwise set the
supplied attributes and commit. -/
def update_resource (st : State R) (ruuid : Nat) (u : ResourceUpdate) :
    Option Resource × State R :=
  match st.resources.find? (fun r => decide (r.uuid = ruuid)) with
  | none => (none, st)
  | some r =>
      (some (applyUpdate r u),
       { st with
         resources := st.resources.map (fun r0 =>
           if r0.uuid = ruuid then applyUpdate r0 u else r0) })

/-! ### Statistics -/

/-- The dictionary `get_statistics` returns. -/
structure Stats where
  resources_count : Nat
  chunks_count : Nat
  images_count : Nat
  parsed_artifacts_count : Nat
  by_source : List (String × Nat)
deriving Repr, DecidableEq

/-- The number of resources whose `source_id` equals `s`. -/
def countBySource (st : State R) (s : String) : Nat :=
  (st.resources.filter (fun r => decide (r.source_id = s))).length

/-- `DatabaseManager.get_statistics`: count the four tables, then count
resources per distinct `source_id`, keeping the sources with a positive
count.  The call runs SELECT and COUNT queries only, so the state it
returns is the state it received. -/
def get_statistics (st : State R) : Stats × State R :=
  ({ resources_count := st.resources.length,
     chunks_count := st.chunks.length,
     images_count := st.images.length,
     parsed_artifacts_count := st.parsed_artifacts.length,
     by_source := ((st.resources.map (fun r => r.source_id)).dedup).filterMap
       (fun s =>
         if 0 < countBySource st s then some (s, countBySource st s) else none) },
   st)

/-! ### Session lifetime (`__enter__`/`__exit__`)

The SQLAlchemy session holds the last committed database state and the
pending state of the open transaction; `rollback` discards the pending
changes, `close` releases the session. -/

/-- A SQLAlchemy session: committed state, pending (uncommitted) state,
and whether the session has been closed. -/
structure SessionState (R : Type) where
  committed : State R
  pending : State R
  closed : Bool
deriving Repr, DecidableEq

/-- `Session.rollback`: discard the pending transaction. -/
def sessionRollback (s : SessionState R) : SessionState R :=
  { s with pending := s.committed }

/-- `DatabaseManager.close` (`Session.close`): release the session. -/
def sessionClose (s : SessionState R) : SessionState R :=
  { s with closed := true }

/-- `DatabaseManager.__exit__(exc_type, exc_val, exc_tb)`: when an
exception type is present, roll back, then close unconditionally. -/
def dbmExit (exc_type : Option String) (s : SessionState R) : SessionState R :=
  sessionClose (if exc_type.isSome then sessionRollback s else s)

/-! ### Spec-side definitions used by the corrections -/

/-- The error taxonomy entry the spec assigns to a malformed threshold. -/
inductive SearchError where
  | invalidThreshold
deriving Repr, DecidableEq

/-- Follows the spec's words, not the source: vector search with the
threshold validation the spec prescribes, failing with `InvalidThreshold`
for `threshold` outside `[-1, 1]` and otherwise delegating to the source's
query.  Compared against `search_chunks_by_embedding`, which has no such
check. -/
def searchVectorChecked (pg : PG R) (st : State R) (embedding : List R)
    (threshold : R) (limit : Nat) : Except SearchError (List (VRow R)) :=
  if threshold < -1 ∨ 1 < threshold then Except.error SearchError.invalidThreshold
  else Except.ok (search_chunks_by_embedding pg st embedding threshold limit)

/-- The output order the spec claims for the fused search: strictly
descending combined score, ties broken by chunk id ascending. -/
def specFusedOrder (l : List (HRow R)) : Prop :=
  l.Pairwise (fun a b =>
    b.combined_score < a.combined_score ∨
    (a.combined_score = b.combined_score ∧ a.uuid < b.uuid))

/-- The number of resources whose `remote_src_url` equals `some u`. -/
def countByUrl (st : State R) (u : String) : Nat :=
  (st.resources.filter (fun r => decide (r.remote_src_url = some u))).length

/-! ### Concrete fixtures for witnesses and counterexamples -/

/-- A concrete instantiation of the PostgreSQL built-ins over `ℤ`:
exact-token matching, term-frequency ranking, squared difference of the
vector heads as a nonnegative distance. -/
def pg0 : PG ℤ where
  websearchMatch := fun tsv q => tsv.any (fun tkn => decide (tkn = q))
  tsRank := fun tsv q => ((tsv.filter (fun tkn => decide (tkn = q))).length : ℤ)
  vdist := fun a b => (a.headD 0 - b.headD 0) * (a.headD 0 - b.headD 0)

/-- A chunk row with the given uuid, tsvector and embedding. -/
def mkChunk (u ru : Nat) (txt : String) (tsv : List String)
    (emb : Option (List ℤ)) : Chunk ℤ :=
  { uuid := u, resource_uuid := ru, chunk_order := 0, chunking_text := txt,
    description := none, chunking_text_tsv := tsv, chunk_embedding := emb }

/-- The empty database. -/
def stEmpty : State ℤ :=
  { resources := [], chunks := [], images := [], parsed_artifacts := [] }

/-- Two chunks, table order `[2, 1]`, identical embeddings, no tokens:
both score `0`, producing a tie the queries return in table order. -/
def stTie : State ℤ :=
  { resources := [],
    chunks := [mkChunk 2 1 "a" [] (some [1]), mkChunk 1 1 "b" [] (some [1])],
    images := [], parsed_artifacts := [] }

/-- One chunk with an embedding at distance `1` from the query `[0]`,
hence similarity `0`. -/
def stOne : State ℤ :=
  { resources := [], chunks := [mkChunk 1 1 "a" [] (some [1])],
    images := [], parsed_artifacts := [] }

/-- A resource row used by concrete fixtures. -/
def mkResource (u : Nat) (url : Option String) (src : String) : Resource :=
  { uuid := u, remote_src_url := url, source_id := src,
    content_header := "h", need_parsed := false, crawl_completed := false }

/-- A database with a single resource from source `a`. -/
def stRes : State ℤ :=
  { resources := [mkResource 1 (some "u1") "a"], chunks := [],
    images := [], parsed_artifacts := [] }

/-- One chunk with a NULL embedding. -/
def stNoEmb : State ℤ :=
  { resources := [], chunks := [mkChunk 1 1 "a" [] none],
    images := [], parsed_artifacts := [] }

/-- An open session whose pending transaction differs from the committed
state. -/
def sess0 : SessionState ℤ :=
  { committed := stEmpty, pending := stRes, closed := false }

/-- An update record supplying no field. -/
def updNone : ResourceUpdate :=
  { content_header := none, need_parsed := none, crawl_completed := none }

/-! ### Lemmas about the stable sort -/

theorem mem_insertSorted (lt : α → α → Bool) (a x : α) (l : List α) :
    x ∈ insertSorted lt a l ↔ x = a ∨ x ∈ l := by
  induction l with
  | nil => simp [insertSorted]
  | cons b bs ih =>
      by_cases h : lt a b = true
      · simp [insertSorted, h]
      · simp only [insertSorted, if_neg h, List.mem_cons, ih]
        tauto

theorem mem_insertAll (lt : α → α → Bool) (l acc : List α) (x : α) :
    x ∈ insertAll lt l acc ↔ x ∈ l ∨ x ∈ acc := by
  induction l generalizing acc with
  | nil => simp [insertAll]
  | cons a as ih =>
      simp only [insertAll, ih, mem_insertSorted, List.mem_cons]
      tauto

theorem mem_sortDescBy {β : Type} [LinearOrder β] (k : α → β) (l : List α) (x : α) :
    x ∈ sortDescBy k l ↔ x ∈ l := by
  simp [sortDescBy, mem_insertAll]

theorem length_insertSorted (lt : α → α → Bool) (a : α) (l : List α) :
    (insertSorted lt a l).length = l.length + 1 := by
  induction l with
  | nil => rfl
  | cons b bs ih =>
      by_cases h : lt a b = true
      · simp [insertSorted, h]
      · simp [insertSorted, h, ih]

theorem length_insertAll (lt : α → α → Bool) (l acc : List α) :
    (insertAll lt l acc).length = l.length + acc.length := by
  induction l generalizing acc with
  | nil => simp [insertAll]
  | cons a as ih =>
      simp [insertAll, ih, length_insertSorted]
      omega

theorem length_sortDescBy {β : Type} [LinearOrder β] (k : α → β) (l : List α) :
    (sortDescBy k l).length = l.length := by
  simp [sortDescBy, length_insertAll]

theorem pairwise_insertSorted {β : Type} [LinearOrder β] (k : α → β) (a : α)
    (l : List α) (h : l.Pairwise (fun x y => k y ≤ k x)) :
    (insertSorted (fun x y => decide (k y < k x)) a l).Pairwise
      (fun x y => k y ≤ k x) := by
  induction l with
  | nil => simp [insertSorted]
  | cons b bs ih =>
      rcases List.pairwise_cons.mp h with ⟨hb, hbs⟩
      by_cases hab : k b < k a
      · simp only [insertSorted, decide_eq_true_eq, if_pos hab]
        refine List.pairwise_cons.mpr ⟨?_, h⟩
        intro y hy
        rcases List.mem_cons.mp hy with rfl | hy2
        · exact le_of_lt hab
        · exact le_trans (hb y hy2) (le_of_lt hab)
      · simp only [insertSorted, decide_eq_true_eq, if_neg hab]
        refine List.pairwise_cons.mpr ⟨?_, ih hbs⟩
        intro y hy
        rcases (mem_insertSorted _ _ _ _).mp hy with rfl | hy2
        · exact le_of_not_lt hab
        · exact hb y hy2

theorem pairwise_insertAll {β : Type} [LinearOrder β] (k : α → β) (l acc : List α)
    (h : acc.Pairwise (fun x y => k y ≤ k x)) :
    (insertAll (fun x y => decide (k y < k x)) l acc).Pairwise
      (fun x y => k y ≤ k x) := by
  induction l generalizing acc with
  | nil => exact h
  | cons a as ih => exact ih _ (pairwise_insertSorted k a acc h)

/-- `sortDescBy` output is weakly descending in the key. -/
theorem pairwise_sortDescBy {β : Type} [LinearOrder β] (k : α → β) (l : List α) :
    (sortDescBy k l).Pairwise (fun x y => k y ≤ k x) :=
  pairwise_insertAll k l [] List.Pairwise.nil

theorem insertSorted_map {β : Type} [LinearOrder β] {γ : Type} (k1 : γ → β)
    (k2 : α → β) (f : α → γ) (hk : ∀ a, k1 (f a) = k2 a) (a : α) (l : List α) :
    insertSorted (fun x y => decide (k1 y < k1 x)) (f a) (l.map f)
      = (insertSorted (fun x y => decide (k2 y < k2 x)) a l).map f := by
  induction l with
  | nil => rfl
  | cons b bs ih =>
      simp only [List.map_cons, insertSorted, hk]
      by_cases h : k2 b < k2 a
      · simp [h]
      · simp [h, ih]

theorem insertAll_map {β : Type} [LinearOrder β] {γ : Type} (k1 : γ → β)
    (k2 : α → β) (f : α → γ) (hk : ∀ a, k1 (f a) = k2 a) (l acc : List α) :
    insertAll (fun x y => decide (k1 y < k1 x)) (l.map f) (acc.map f)
      = (insertAll (fun x y => decide (k2 y < k2 x)) l acc).map f := by
  induction l generalizing acc with
  | nil => rfl
  | cons a as ih =>
      simp only [List.map_cons, insertAll]
      rw [insertSorted_map k1 k2 f hk, ih]

/-- Sorting a mapped list by a key that factors through the map equals
mapping the sorted list: the two stable sorts agree element for element. -/
theorem sortDescBy_map {β : Type} [LinearOrder β] {γ : Type} (k1 : γ → β)
    (k2 : α → β) (f : α → γ) (hk : ∀ a, k1 (f a) = k2 a) (l : List α) :
    sortDescBy k1 (l.map f) = (sortDescBy k2 l).map f := by
  simpa [sortDescBy] using insertAll_map k1 k2 f hk l []

/-! ### Claim C9 -/

/-- Claim C9: for every store state and every resource uuid not present in
the store, `update_resource` with that uuid returns `None` and leaves
every `Resource` row unchanged, whatever update fields are supplied. -/
theorem update_resource_missing_c9 (st : State R) (ruuid : Nat)
    (u : ResourceUpdate) (h : ∀ r ∈ st.resources, r.uuid ≠ ruuid) :
    update_resource st ruuid u = (none, st) := by
  have hf : st.resources.find? (fun r => decide (r.uuid = ruuid)) = none := by
    rw [List.find?_eq_none]
    intro r hr
    simp [h r hr]
  simp [update_resource, hf]

/-- Witness for C9 at a concrete store and a uuid absent from it. -/
theorem update_resource_missing_c9_witness :
    update_resource stRes 99 updNone = (none, stRes) :=
  update_resource_missing_c9 stRes 99 updNone (by decide)

/-! ### Claim C10 -/

/-- Claim C10: exiting the `DatabaseManager` context always closes the
session, and when the scope exits with an exception the pending
transaction is rolled back before the close, so the pending state visible
afterwards is exactly the committed state. -/
theorem exit_rollback_close_c10 (exc : Option String) (s : SessionState R) :
    (dbmExit exc s).closed = true ∧
    (∀ x, exc = some x → (dbmExit exc s).pending = s.committed) := by
  constructor
  · cases exc <;> simp [dbmExit, sessionClose, sessionRollback]
  · intro x hx
    subst hx
    simp [dbmExit, sessionClose, sessionRollback]

/-- Witness for C10 at a concrete session exiting with an exception. -/
theorem exit_rollback_close_c10_witness :
    (dbmExit (some "err") sess0).closed = true ∧
    (dbmExit (some "err") sess0).pending = sess0.committed := by
  have h := exit_rollback_close_c10 (some "err") sess0
  exact ⟨h.1, h.2 "err" rfl⟩

/-! ### Claim C7 -/

/-- Looking a source up in the association list `get_statistics` builds
returns its resource count, provided the source occurs in the scanned key
list and its count is positive. -/
theorem lookup_by_source (st : State R) (s : String) (l : List String)
    (hs : s ∈ l) (hpos : 0 < countBySource st s) :
    List.lookup s (l.filterMap (fun t =>
      if 0 < countBySource st t then some (t, countBySource st t) else none))
      = some (countBySource st s) := by
  induction l with
  | nil => cases hs
  | cons a as ih =>
      by_cases ha : a = s
      · subst ha
        simp [List.filterMap_cons, if_pos hpos, List.lookup]
      · rcases List.mem_cons.mp hs with h1 | h2
        · exact absurd h1.symm ha
        · by_cases hp : 0 < countBySource st a
          · have hne : (s == a) = false := beq_false_of_ne (Ne.symm ha)
            simp only [List.filterMap_cons, if_pos hp, List.lookup, hne]
            exact ih h2
          · simp only [List.filterMap_cons, if_neg hp]
            exact ih h2

/-- Claim C7: `get_statistics` returns the resource count, chunk count and
image count, a map of resource counts keyed by the source/category tag,
and performs no writes: the state after the call equals the state before. -/
theorem get_statistics_readonly_c7 (st : State R) :
    (get_statistics st).1.resources_count = st.resources.length ∧
    (get_statistics st).1.chunks_count = st.chunks.length ∧
    (get_statistics st).1.images_count = st.images.length ∧
    (∀ s : String, 0 < countBySource st s →
      List.lookup s (get_statistics st).1.by_source = some (countBySource st s)) ∧
    (get_statistics st).2 = st := by
  refine ⟨rfl, rfl, rfl, ?_, rfl⟩
  intro s hpos
  have hmem : s ∈ (st.resources.map (fun r => r.source_id)).dedup := by
    rw [List.mem_dedup]
    rcases List.exists_mem_of_length_pos hpos with ⟨r, hr⟩
    rcases List.mem_filter.mp hr with ⟨hr1, hr2⟩
    exact List.mem_map.mpr ⟨r, hr1, by simpa using hr2⟩
  exact lookup_by_source st s _ hmem hpos

/-- Witness for C7 at a concrete store with one resource of source `a`. -/
theorem get_statistics_readonly_c7_witness :
    List.lookup "a" (get_statistics stRes).1.by_source
      = some (countBySource stRes "a") ∧
    (get_statistics stRes).2 = stRes := by
  have h := get_statistics_readonly_c7 stRes
  exact ⟨h.2.2.2.1 "a" (by decide), h.2.2.2.2⟩

/-! ### Claim C8 -/

/-- Claim C8: vector search never returns a chunk whose stored embedding
is NULL — every returned row stems from a chunk with an embedding — and a
store in which no chunk has an embedding yields the empty result rather
than an error. -/
theorem vector_search_null_embedding_c8 (pg : PG R) (st : State R)
    (emb : List R) (t : R) (lim : Nat) :
    (∀ r ∈ search_chunks_by_embedding pg st emb t lim,
      ∃ c ∈ st.chunks, c.uuid = r.uuid ∧ c.chunk_embedding.isSome = true) ∧
    ((∀ c ∈ st.chunks, c.chunk_embedding = none) →
      search_chunks_by_embedding pg st emb t lim = []) := by
  constructor
  · intro r hr
    simp only [search_chunks_by_embedding] at hr
    have hr1 := List.mem_of_mem_take hr
    rw [mem_sortDescBy] at hr1
    rcases List.mem_filter.mp hr1 with ⟨hr2, _⟩
    rcases List.mem_filterMap.mp hr2 with ⟨c, hc, hce⟩
    rcases Option.map_eq_some'.mp hce with ⟨e, he, hre⟩
    subst hre
    exact ⟨c, hc, rfl, by simp [he]⟩
  · intro hnone
    simp only [search_chunks_by_embedding]
    have h1 : st.chunks.filterMap (fun c =>
        c.chunk_embedding.map (fun e =>
          ({ uuid := c.uuid, resource_uuid := c.resource_uuid,
             chunking_text := c.chunking_text, description := c.description,
             similarity := 1 - pg.vdist e emb } : VRow R))) = [] := by
      rw [List.filterMap_eq_nil_iff]
      intro c hc
      simp [hnone c hc]
    rw [h1]
    simp [sortDescBy, insertAll]

/-- Witness for C8: a store whose only chunk has a NULL embedding yields
the empty result. -/
theorem vector_search_null_embedding_c8_witness :
    search_chunks_by_embedding pg0 stNoEmb [0] 0 10 = [] := by
  have h := vector_search_null_embedding_c8 pg0 stNoEmb [0] 0 10
  exact h.2 (by decide)

/-! ### Claim C4 -/

/-- Counterexample for C4: at threshold `2`, outside `[-1, 1]`, the
spec-mandated validation fails with `InvalidThreshold`, while the source's
query does not fail — it returns a result list (here the empty list). -/
theorem threshold_no_validation_counterexample_c4 :
    searchVectorChecked pg0 stOne [0] 2 10
      = Except.error SearchError.invalidThreshold ∧
    search_chunks_by_embedding pg0 stOne [0] 2 10 = [] := by
  constructor
  · rfl
  · decide

/-- Claim C4 as amended: the source applies no threshold validation; an
out-of-range threshold is used as a plain filter bound, so (for a
nonnegative distance function) any threshold `≥ 1` yields the empty list
rather than an `InvalidThreshold` error. -/
theorem threshold_out_of_range_empty_c4 (pg : PG R) (st : State R)
    (emb : List R) (t : R) (lim : Nat)
    (hd : ∀ a b, 0 ≤ pg.vdist a b) (ht : 1 ≤ t) :
    search_chunks_by_embedding pg st emb t lim = [] := by
  simp only [search_chunks_by_embedding]
  have hfil : (st.chunks.filterMap (fun c =>
      c.chunk_embedding.map (fun e =>
        ({ uuid := c.uuid, resource_uuid := c.resource_uuid,
           chunking_text := c.chunking_text, description := c.description,
           similarity := 1 - pg.vdist e emb } : VRow R)))).filter
      (fun r => decide (t < r.similarity)) = [] := by
    rw [List.filter_eq_nil_iff]
    intro r hr
    rcases List.mem_filterMap.mp hr with ⟨c, hc, hce⟩
    rcases Option.map_eq_some'.mp hce with ⟨e, he, hre⟩
    subst hre
    simp only [decide_eq_true_eq, not_lt]
    have := hd e emb
    linarith
  rw [hfil]
  simp [sortDescBy, insertAll]

/-- Witness for the amended C4 at a concrete store and threshold `2`. -/
theorem threshold_out_of_range_empty_c4_witness :
    search_chunks_by_embedding pg0 stOne [0] 2 10 = [] :=
  threshold_out_of_range_empty_c4 pg0 stOne [0] 2 10
    (fun a b => mul_self_nonneg _) (by norm_num)

/-! ### Claim C2 -/

/-- Counterexample for C2: with weights `1, 1` (so `tw + vw > 0`) and two
tied chunks stored in table order `[2, 1]`, the fused output keeps table
order `[2, 1]`, violating the claimed ascending chunk-id tie-break. -/
theorem hybrid_tiebreak_counterexample_c2 :
    (0 : ℤ) < 1 + 1 ∧
    ¬ specFusedOrder (hybrid_search_chunks pg0 stTie "w" [0] 1 1 10) := by
  constructor
  · decide
  · unfold specFusedOrder
    decide

/-- Claim C2 as amended: for all weights, the fused output is in weakly
descending order of combined score; the SQL orders by the combined score
only, so entries with equal score appear in join order, not necessarily in
ascending chunk-id order. -/
theorem hybrid_sorted_desc_c2 (pg : PG R) (st : State R) (q : String)
    (emb : List R) (tw vw : R) (lim : Nat) :
    (hybrid_search_chunks pg st q emb tw vw lim).Pairwise
      (fun a b => b.combined_score ≤ a.combined_score) := by
  simp only [hybrid_search_chunks]
  exact (pairwise_sortDescBy (fun r : HRow R => r.combined_score)
      (hybridJoin tw vw (textSearchCTE pg st q)
        (vectorSearchCTE pg st emb))).sublist
    (List.take_sublist lim _)

/-! ### Claim C3 -/

/-- Counterexample for C3: two chunks with identical embeddings tie at the
same similarity, so the returned sequence is not strictly descending. -/
theorem vector_search_strict_desc_counterexample_c3 :
    ¬ (search_chunks_by_embedding pg0 stTie [0] (-1) 10).Pairwise
      (fun a b => b.similarity < a.similarity) := by
  decide

/-- Claim C3 as amended: every returned pair's similarity equals `1` minus
the distance between the stored embedding and the query vector, every
returned pair exceeds the threshold, and the sequence is in weakly (not
strictly) descending order of similarity — ties are possible and keep scan
order. -/
theorem vector_search_contract_c3 (pg : PG R) (st : State R) (emb : List R)
    (t : R) (lim : Nat) :
    (∀ r ∈ search_chunks_by_embedding pg st emb t lim,
      ∃ c ∈ st.chunks, ∃ e, c.chunk_embedding = some e ∧ c.uuid = r.uuid ∧
        r.similarity = 1 - pg.vdist e emb) ∧
    (∀ r ∈ search_chunks_by_embedding pg st emb t lim, t < r.similarity) ∧
    (search_chunks_by_embedding pg st emb t lim).Pairwise
      (fun a b => b.similarity ≤ a.similarity) := by
  refine ⟨?_, ?_, ?_⟩
  · intro r hr
    simp only [search_chunks_by_embedding] at hr
    have hr1 := List.mem_of_mem_take hr
    rw [mem_sortDescBy] at hr1
    rcases List.mem_filter.mp hr1 with ⟨hr2, _⟩
    rcases List.mem_filterMap.mp hr2 with ⟨c, hc, hce⟩
    rcases Option.map_eq_some'.mp hce with ⟨e, he, hre⟩
    subst hre
    exact ⟨c, hc, e, he, rfl, rfl⟩
  · intro r hr
    simp only [search_chunks_by_embedding] at hr
    have hr1 := List.mem_of_mem_take hr
    rw [mem_sortDescBy] at hr1
    rcases List.mem_filter.mp hr1 with ⟨_, hlt⟩
    simpa using hlt
  · simp only [search_chunks_by_embedding]
    exact (pairwise_sortDescBy (fun r : VRow R => r.similarity) _).sublist
      (List.take_sublist lim _)

/-- Witness for the amended C3: the concrete single-row result satisfies
the threshold bound. -/
theorem vector_search_contract_c3_witness :
    (-1 : ℤ) < ({ uuid := 1, resource_uuid := 1, chunking_text := "a",
                  description := none, similarity := 0 } : VRow ℤ).similarity := by
  have h := (vector_search_contract_c3 pg0 stOne [0] (-1) 10).2.1
  exact h _ (by decide)

/-! ### Claim C5 -/

/-- Claim C5: creating a resource with a URL, then creating another with
the same URL, never yields two rows with that URL: the second call fails
with the duplicate-URL constraint violation, leaves the store unchanged,
and exactly one row with the URL remains. -/
theorem create_resource_dedup_c5 (st : State R) (r1 r2 : Resource) (u : String)
    (h1 : r1.remote_src_url = some u) (h2 : r2.remote_src_url = some u)
    (hpk1 : ∀ r0 ∈ st.resources, r0.uuid ≠ r1.uuid)
    (hurl : ∀ r0 ∈ st.resources, r0.remote_src_url ≠ some u)
    (hpk2 : ∀ r0 ∈ st.resources, r0.uuid ≠ r2.uuid)
    (hne : r2.uuid ≠ r1.uuid) :
    (create_resource st r1).1 = Except.ok r1 ∧
    create_resource (create_resource st r1).2 r2
      = (Except.error DbError.duplicateResource, (create_resource st r1).2) ∧
    countByUrl (create_resource st r1).2 u = 1 := by
  have hany1 : st.resources.any (fun r0 => decide (r0.uuid = r1.uuid)) = false := by
    rw [List.any_eq_false]
    intro r0 hr0
    simp [hpk1 r0 hr0]
  have hconf1 : urlConflict st r1 = false := by
    rw [urlConflict, h1, List.any_eq_false]
    intro r0 hr0
    simp [hurl r0 hr0]
  have hstep1 : create_resource st r1
      = (Except.ok r1, { st with resources := st.resources ++ [r1] }) := by
    simp [create_resource, hany1, hconf1]
  have hany2 : (st.resources ++ [r1]).any (fun r0 => decide (r0.uuid = r2.uuid)) = false := by
    rw [List.any_eq_false]
    intro r0 hr0
    rcases List.mem_append.mp hr0 with hm | hm
    · simp [hpk2 r0 hm]
    · rw [List.mem_singleton] at hm
      subst hm
      simp only [decide_eq_true_eq]
      exact fun h => hne h.symm
  have hconf2 : urlConflict { st with resources := st.resources ++ [r1] } r2 = true := by
    rw [urlConflict, h2, List.any_eq_true]
    exact ⟨r1, List.mem_append.mpr (Or.inr (List.mem_singleton.mpr rfl)), by simp [h1]⟩
  refine ⟨by rw [hstep1], ?_, ?_⟩
  · rw [hstep1]
    simp [create_resource, hany2, hconf2]
  · rw [hstep1]
    simp only [countByUrl, List.filter_append]
    have hfl : st.resources.filter (fun r => decide (r.remote_src_url = some u)) = [] := by
      rw [List.filter_eq_nil_iff]
      intro r0 hr0
      simp [hurl r0 hr0]
    rw [hfl]
    simp [h1]

/-- Witness for C5 at the empty store and two concrete resources sharing
the URL `u`. -/
theorem create_resource_dedup_c5_witness :
    (create_resource stEmpty (mkResource 1 (some "u") "a")).1
      = Except.ok (mkResource 1 (some "u") "a") ∧
    create_resource (create_resource stEmpty (mkResource 1 (some "u") "a")).2
        (mkResource 2 (some "u") "a")
      = (Except.error DbError.duplicateResource,
         (create_resource stEmpty (mkResource 1 (some "u") "a")).2) ∧
    countByUrl (create_resource stEmpty (mkResource 1 (some "u") "a")).2 "u" = 1 :=
  create_resource_dedup_c5 stEmpty (mkResource 1 (some "u") "a")
    (mkResource 2 (some "u") "a") "u" rfl rfl
    (by decide) (by decide) (by decide) (by decide)

/-! ### Claim C1 -/

/-- Under distinct chunk uuids, looking a member chunk up by its uuid
finds exactly that chunk. -/
theorem find?_uuid_of_nodup (cs : List (Chunk R))
    (hnd : (cs.map (fun c => c.uuid)).Nodup) (c : Chunk R) (hc : c ∈ cs) :
    cs.find? (fun c0 => decide (c0.uuid = c.uuid)) = some c := by
  induction cs with
  | nil => cases hc
  | cons c0 cs ih =>
      rw [List.map_cons, List.nodup_cons] at hnd
      obtain ⟨hn0, hn1⟩ := hnd
      by_cases hceq : c = c0
      · subst hceq
        exact List.find?_cons_of_pos _ (by simp)
      · have hmem : c ∈ cs := by
          rcases List.mem_cons.mp hc with h | h
          · exact absurd h hceq
          · exact h
        have hne : c0.uuid ≠ c.uuid := by
          intro h
          exact hn0 (h ▸ List.mem_map.mpr ⟨c, hmem, rfl⟩)
        rw [List.find?_cons_of_neg _ (by simp [hne])]
        exact ih hn1 hmem

/-- Under distinct chunk uuids, the vector CTE row found for a chunk that
stores an embedding is that chunk's row. -/
theorem vs_find_of_embedding (pg : PG R) (emb : List R) (cs : List (Chunk R))
    (hnd : (cs.map (fun c => c.uuid)).Nodup) (c : Chunk R) (hc : c ∈ cs)
    (e : List R) (he : c.chunk_embedding = some e) :
    (cs.filterMap (fun c0 => c0.chunk_embedding.map (fun e0 =>
      ({ uuid := c0.uuid, resource_uuid := c0.resource_uuid,
         chunking_text := c0.chunking_text, description := c0.description,
         vector_score := 1 - pg.vdist e0 emb } : VSRow R)))).find?
      (fun v => decide (v.uuid = c.uuid))
      = some { uuid := c.uuid, resource_uuid := c.resource_uuid,
               chunking_text := c.chunking_text, description := c.description,
               vector_score := 1 - pg.vdist e emb } := by
  induction cs with
  | nil => cases hc
  | cons c0 cs ih =>
      rw [List.map_cons, List.nodup_cons] at hnd
      obtain ⟨hn0, hn1⟩ := hnd
      by_cases hceq : c = c0
      · subst hceq
        rw [List.filterMap_cons, he]
        exact List.find?_cons_of_pos _ (by simp)
      · have hmem : c ∈ cs := by
          rcases List.mem_cons.mp hc with h | h
          · exact absurd h hceq
          · exact h
        have hne : c0.uuid ≠ c.uuid := by
          intro h
          exact hn0 (h ▸ List.mem_map.mpr ⟨c, hmem, rfl⟩)
        rw [List.filterMap_cons]
        cases h0 : c0.chunk_embedding with
        | none => exact ih hn1 hmem
        | some e0 =>
            rw [Option.map_some']
            rw [List.find?_cons_of_neg _ (by simp [hne])]
            exact ih hn1 hmem

/-- Under distinct chunk uuids, no vector CTE row carries the uuid of a
chunk whose embedding is NULL. -/
theorem vs_find_of_no_embedding (pg : PG R) (emb : List R) (cs : List (Chunk R))
    (hnd : (cs.map (fun c => c.uuid)).Nodup) (c : Chunk R) (hc : c ∈ cs)
    (he : c.chunk_embedding = none) :
    (cs.filterMap (fun c0 => c0.chunk_embedding.map (fun e0 =>
      ({ uuid := c0.uuid, resource_uuid := c0.resource_uuid,
         chunking_text := c0.chunking_text, description := c0.description,
         vector_score := 1 - pg.vdist e0 emb } : VSRow R)))).find?
      (fun v => decide (v.uuid = c.uuid)) = none := by
  rw [List.find?_eq_none]
  intro v hv
  rcases List.mem_filterMap.mp hv with ⟨c1, hc1, hmap⟩
  rcases Option.map_eq_some'.mp hmap with ⟨e1, he1, hv1⟩
  subst hv1
  simp only [decide_eq_true_eq]
  intro huu
  have hcc : c1 = c := List.inj_on_of_nodup_map hnd hc1 hc huu
  rw [hcc, he] at he1
  cases he1

/-- A text CTE row carries uuid `u` exactly when some chunk with uuid `u`
matches the query. -/
theorem textCTE_any_uuid (pg : PG R) (st : State R) (q : String) (u : Nat) :
    (textSearchCTE pg st q).any (fun t => decide (t.uuid = u)) = true ↔
    ∃ c ∈ st.chunks, c.uuid = u ∧
      pg.websearchMatch c.chunking_text_tsv q = true := by
  rw [List.any_eq_true]
  constructor
  · rintro ⟨t, ht, hdec⟩
    rcases List.mem_map.mp ht with ⟨c, hcf, rfl⟩
    rcases List.mem_filter.mp hcf with ⟨hc, hm⟩
    exact ⟨c, hc, by simpa using hdec, hm⟩
  · rintro ⟨c, hc, hu, hm⟩
    refine ⟨_, List.mem_map.mpr ⟨c, List.mem_filter.mpr ⟨hc, hm⟩, rfl⟩, ?_⟩
    simpa using hu

/-- Claim C1: every row the hybrid search returns carries the fused score
`textWeight * textScore + vectorWeight * vectorScore`, a side a chunk is
missing from contributing `0`; and (with a limit large enough not to
truncate) the returned chunk ids are exactly the full outer join's key
set: the chunks matching the text query together with the chunks holding
an embedding. -/
theorem hybrid_search_full_outer_join_c1 (pg : PG R) (st : State R)
    (q : String) (emb : List R) (tw vw : R) (lim : Nat)
    (hnd : (st.chunks.map (fun c => c.uuid)).Nodup) :
    (∀ r ∈ hybrid_search_chunks pg st q emb tw vw lim,
      r.combined_score = tw * textScoreOf pg st q r.uuid
        + vw * vecScoreOf pg st emb r.uuid) ∧
    (2 * st.chunks.length ≤ lim →
      ∀ u : Nat, (∃ r ∈ hybrid_search_chunks pg st q emb tw vw lim, r.uuid = u) ↔
        ∃ c ∈ st.chunks, c.uuid = u ∧
          (pg.websearchMatch c.chunking_text_tsv q = true ∨
           c.chunk_embedding.isSome = true)) := by
  constructor
  · intro r hr
    simp only [hybrid_search_chunks] at hr
    have hr1 := List.mem_of_mem_take hr
    rw [mem_sortDescBy] at hr1
    rcases List.mem_append.mp hr1 with hL | hR
    · rcases List.mem_map.mp hL with ⟨t, ht, rfl⟩
      rcases List.mem_map.mp ht with ⟨c, hcf, rfl⟩
      rcases List.mem_filter.mp hcf with ⟨hc, hm⟩
      have hfind := find?_uuid_of_nodup st.chunks hnd c hc
      simp only [textScoreOf, vecScoreOf, hfind, hm, if_pos]
      cases he : c.chunk_embedding with
      | some e =>
          simp only [vectorSearchCTE]
          rw [vs_find_of_embedding pg emb st.chunks hnd c hc e he]
          simp only [Option.map_some', Option.getD_some]
          ring
      | none =>
          simp only [vectorSearchCTE]
          rw [vs_find_of_no_embedding pg emb st.chunks hnd c hc he]
          simp only [Option.map_none', Option.getD_none]
          ring
    · rcases List.mem_map.mp hR with ⟨v, hv, rfl⟩
      rcases List.mem_filter.mp hv with ⟨hv1, hnoany⟩
      simp only [vectorSearchCTE] at hv1
      rcases List.mem_filterMap.mp hv1 with ⟨c, hc, hmap⟩
      rcases Option.map_eq_some'.mp hmap with ⟨e, he, rfl⟩
      have hfind := find?_uuid_of_nodup st.chunks hnd c hc
      have hnm : pg.websearchMatch c.chunking_text_tsv q = false := by
        by_contra hcon
        rw [Bool.not_eq_false] at hcon
        have hany : (textSearchCTE pg st q).any
            (fun t => decide (t.uuid = c.uuid)) = true :=
          (textCTE_any_uuid pg st q c.uuid).mpr ⟨c, hc, rfl, hcon⟩
        simp [hany] at hnoany
      simp only [textScoreOf, vecScoreOf, hfind, hnm, he, Bool.false_eq_true,
        if_false]
      ring
  · intro hlim u
    have hlen : (hybridJoin tw vw (textSearchCTE pg st q)
        (vectorSearchCTE pg st emb)).length ≤ lim := by
      have h1 : (textSearchCTE pg st q).length ≤ st.chunks.length := by
        simp only [textSearchCTE, List.length_map]
        exact List.length_filter_le _ _
      have h2 : (vectorSearchCTE pg st emb).length ≤ st.chunks.length :=
        List.length_filterMap_le _ _
      have h3 : ((vectorSearchCTE pg st emb).filter (fun v =>
          !((textSearchCTE pg st q).any (fun t => decide (t.uuid = v.uuid))))).length
          ≤ (vectorSearchCTE pg st emb).length := List.length_filter_le _ _
      simp only [hybridJoin, List.length_append, List.length_map]
      omega
    have heq : hybrid_search_chunks pg st q emb tw vw lim
        = sortDescBy (fun r => r.combined_score)
            (hybridJoin tw vw (textSearchCTE pg st q)
              (vectorSearchCTE pg st emb)) := by
      simp only [hybrid_search_chunks]
      apply List.take_of_length_le
      rw [length_sortDescBy]
      exact hlen
    rw [heq]
    simp only [mem_sortDescBy]
    constructor
    · rintro ⟨r, hr, rfl⟩
      rcases List.mem_append.mp hr with hL | hR
      · rcases List.mem_map.mp hL with ⟨t, ht, rfl⟩
        rcases List.mem_map.mp ht with ⟨c, hcf, rfl⟩
        rcases List.mem_filter.mp hcf with ⟨hc, hm⟩
        exact ⟨c, hc, rfl, Or.inl hm⟩
      · rcases List.mem_map.mp hR with ⟨v, hv, rfl⟩
        rcases List.mem_filter.mp hv with ⟨hv1, _⟩
        simp only [vectorSearchCTE] at hv1
        rcases List.mem_filterMap.mp hv1 with ⟨c, hc, hmap⟩
        rcases Option.map_eq_some'.mp hmap with ⟨e, he, rfl⟩
        exact ⟨c, hc, rfl, Or.inr (by simp [he])⟩
    · rintro ⟨c, hc, rfl, hcase⟩
      rcases hcase with hm | hemb
      · exact ⟨_, List.mem_append.mpr (Or.inl (List.mem_map.mpr
          ⟨_, List.mem_map.mpr ⟨c, List.mem_filter.mpr ⟨hc, hm⟩, rfl⟩, rfl⟩)), rfl⟩
      · rcases Option.isSome_iff_exists.mp hemb with ⟨e, he⟩
        cases hany : (textSearchCTE pg st q).any
            (fun t => decide (t.uuid = c.uuid)) with
        | true =>
            rcases (textCTE_any_uuid pg st q c.uuid).mp hany with ⟨c1, hc1, hu1, hm1⟩
            exact ⟨_, List.mem_append.mpr (Or.inl (List.mem_map.mpr
              ⟨_, List.mem_map.mpr ⟨c1, List.mem_filter.mpr ⟨hc1, hm1⟩, rfl⟩, rfl⟩)),
              hu1⟩
        | false =>
            refine ⟨_, List.mem_append.mpr (Or.inr (List.mem_map.mpr
              ⟨{ uuid := c.uuid, resource_uuid := c.resource_uuid,
                 chunking_text := c.chunking_text, description := c.description,
                 vector_score := 1 - pg.vdist e emb }, ?_, rfl⟩)), rfl⟩
            refine List.mem_filter.mpr ⟨?_, ?_⟩
            · simp only [vectorSearchCTE]
              exact List.mem_filterMap.mpr ⟨c, hc, by rw [he]; rfl⟩
            · show (!(textSearchCTE pg st q).any
                (fun t => decide (t.uuid = c.uuid))) = true
              rw [hany]
              rfl

/-- Witness for C1 at a concrete store: the score of a concrete returned
row is the weighted sum of that chunk's lexical and vector scores. -/
theorem hybrid_search_full_outer_join_c1_witness :
    ({ uuid := 2, resource_uuid := 1, chunking_text := "a",
       description := none, combined_score := 0 } : HRow ℤ).combined_score
      = 1 * textScoreOf pg0 stTie "w" 2 + 1 * vecScoreOf pg0 stTie [0] 2 := by
  have h := (hybrid_search_full_outer_join_c1 pg0 stTie "w" [0] 1 1 10
    (by decide)).1
  exact h _ (by decide)

/-! ### Claim C6 -/

/-- Counterexample for C6: the hybrid query's vector side applies no
similarity threshold, so with `textWeight = 0, vectorWeight = 1` the
hybrid search returns a chunk (similarity `0`) that the pure vector
search with threshold `1` excludes: the outputs differ. -/
theorem hybrid_pure_vector_counterexample_c6 :
    (hybrid_search_chunks pg0 stOne "w" [0] 0 1 10).map (fun r => r.uuid)
      ≠ (search_chunks_by_embedding pg0 stOne [0] 1 10).map (fun r => r.uuid) := by
  decide

/-- Claim C6 as amended: the equivalence holds only when the lexical side
is empty (otherwise text-only matches enter with score `0`) and every
stored embedding clears the threshold (the hybrid vector side has no
threshold filter): under those two conditions, hybrid search with
`textWeight = 0, vectorWeight = 1` returns chunks in exactly the order of
the pure vector search with the same query vector, threshold and limit. -/
theorem hybrid_pure_vector_equiv_c6 (pg : PG R) (st : State R) (q : String)
    (emb : List R) (t : R) (lim : Nat)
    (hq : ∀ c ∈ st.chunks, pg.websearchMatch c.chunking_text_tsv q = false)
    (ht : ∀ c ∈ st.chunks, ∀ e, c.chunk_embedding = some e →
      t < 1 - pg.vdist e emb) :
    (hybrid_search_chunks pg st q emb 0 1 lim).map (fun r => r.uuid)
      = (search_chunks_by_embedding pg st emb t lim).map (fun r => r.uuid) := by
  have hts : textSearchCTE pg st q = [] := by
    simp only [textSearchCTE, List.map_eq_nil_iff, List.filter_eq_nil_iff]
    intro c hc
    simp [hq c hc]
  have hjoin : hybridJoin (0 : R) 1 (textSearchCTE pg st q)
      (vectorSearchCTE pg st emb)
      = (vectorSearchCTE pg st emb).map (fun v =>
          ({ uuid := v.uuid, resource_uuid := v.resource_uuid,
             chunking_text := v.chunking_text, description := v.description,
             combined_score := 0 * 0 + v.vector_score * 1 } : HRow R)) := by
    rw [hts]
    simp [hybridJoin]
  have hrows : st.chunks.filterMap (fun c =>
      c.chunk_embedding.map (fun e =>
        ({ uuid := c.uuid, resource_uuid := c.resource_uuid,
           chunking_text := c.chunking_text, description := c.description,
           similarity := 1 - pg.vdist e emb } : VRow R)))
      = (vectorSearchCTE pg st emb).map (fun v =>
          ({ uuid := v.uuid, resource_uuid := v.resource_uuid,
             chunking_text := v.chunking_text, description := v.description,
             similarity := v.vector_score } : VRow R)) := by
    simp only [vectorSearchCTE]
    rw [List.map_filterMap]
    simp only [Option.map_map]
    rfl
  have hfil : ((vectorSearchCTE pg st emb).map (fun v =>
      ({ uuid := v.uuid, resource_uuid := v.resource_uuid,
         chunking_text := v.chunking_text, description := v.description,
         similarity := v.vector_score } : VRow R))).filter
      (fun r => decide (t < r.similarity))
      = (vectorSearchCTE pg st emb).map (fun v =>
          ({ uuid := v.uuid, resource_uuid := v.resource_uuid,
             chunking_text := v.chunking_text, description := v.description,
             similarity := v.vector_score } : VRow R)) := by
    rw [List.filter_eq_self]
    intro r hr
    rcases List.mem_map.mp hr with ⟨v, hv, rfl⟩
    simp only [vectorSearchCTE] at hv
    rcases List.mem_filterMap.mp hv with ⟨c, hc, hmap⟩
    rcases Option.map_eq_some'.mp hmap with ⟨e, he, rfl⟩
    simpa using ht c hc e he
  simp only [hybrid_search_chunks, search_chunks_by_embedding, hjoin, hrows, hfil]
  rw [sortDescBy_map (fun r : HRow R => r.combined_score)
      (fun v : VSRow R => v.vector_score)
      (fun v => ({ uuid := v.uuid, resource_uuid := v.resource_uuid,
                   chunking_text := v.chunking_text, description := v.description,
                   combined_score := 0 * 0 + v.vector_score * 1 } : HRow R))
      (fun v => by simp),
    sortDescBy_map (fun r : VRow R => r.similarity)
      (fun v : VSRow R => v.vector_score)
      (fun v => ({ uuid := v.uuid, resource_uuid := v.resource_uuid,
                   chunking_text := v.chunking_text, description := v.description,
                   similarity := v.vector_score } : VRow R))
      (fun v => rfl)]
  rw [← List.map_take, ← List.map_take, List.map_map, List.map_map]
  rfl

/-- Witness for the amended C6 at a concrete store where the text query
matches nothing and the single embedding clears the threshold. -/
theorem hybrid_pure_vector_equiv_c6_witness :
    (hybrid_search_chunks pg0 stOne "w" [0] 0 1 10).map (fun r => r.uuid)
      = (search_chunks_by_embedding pg0 stOne [0] (-1) 10).map (fun r => r.uuid) := by
  apply hybrid_pure_vector_equiv_c6
  · intro c hc
    rw [show stOne.chunks = [mkChunk 1 1 "a" [] (some [1])] from rfl,
      List.mem_singleton] at hc
    subst hc
    decide
  · intro c hc e he
    rw [show stOne.chunks = [mkChunk 1 1 "a" [] (some [1])] from rfl,
      List.mem_singleton] at hc
    subst hc
    rw [show (mkChunk 1 1 "a" [] (some [1])).chunk_embedding = some [1] from rfl]
      at he
    injection he with he2
    subst he2
    decide

end AIBrainDB
